import Mathlib

/-!
Verification of the stop-word conversion utility.

The program under study reads a source file, strips leading and trailing
whitespace, splits the remaining text on runs of whitespace, and writes each
token followed by a newline to a destination file that is opened for writing
with truncation. We embed the program shallowly:

- the pure tokenisation pipeline is translated character-for-character from
  the source (isPySpace, pyStrip, pySplit, procOutput);
- the file-handling behaviour is modelled by an explicit event trace
  (open/read/close on the source, open/write/close on the destination) and a
  filesystem state, a map from path names to optional file contents, updated
  by folding the trace;
- spec-side definitions (splitBy, specTokens, specDestinationText, linesOf)
  are written independently from the specification's words, so that the
  refinement theorems compare two genuinely different formulations.
-/

/-- Whitespace set of the source language's argument-free strip and split:
space, tab, newline, carriage return, vertical tab and form feed. -/
def isPySpace (c : Char) : Bool :=
  c == ' ' || c == '\t' || c == '\n' || c == '\r' || c == '\x0b' || c == '\x0c'

/-- Translation of the strip step on line 14 of the source: remove leading
and trailing whitespace characters. -/
def pyStrip (s : List Char) : List Char :=
  ((s.dropWhile isPySpace).reverse.dropWhile isPySpace).reverse

/-- Worker for pySplit: scans the text left to right, accumulating the
current token in reverse; a whitespace character flushes a nonempty
accumulator as a finished token; the end of the text flushes the final
nonempty accumulator. -/
def pySplitAux : List Char → List Char → List (List Char)
  | [], acc => if acc.isEmpty then [] else [acc.reverse]
  | c :: cs, acc =>
    if isPySpace c then
      if acc.isEmpty then pySplitAux cs []
      else acc.reverse :: pySplitAux cs []
    else
      pySplitAux cs (c :: acc)

/-- Translation of the argument-free split on line 14 of the source: split
into maximal runs of non-whitespace characters, producing no empty tokens. -/
def pySplit (s : List Char) : List (List Char) := pySplitAux s []

/-- The token sequence the program derives from raw source content, as on
line 14 of the source: content read, stripped, then whitespace-split. -/
def pyTokens (T : List Char) : List (List Char) := pySplit (pyStrip T)

/-- Destination content produced by the write loop on lines 16-17 of the
source: each token followed by a single newline, in order. -/
def procOutput (T : List Char) : List Char :=
  ((pyTokens T).map (fun t => t ++ ['\n'])).flatten

/-- Filesystem state: each path maps to the contents of the file there, or
to none when no file exists at that path. -/
def FS : Type := String → Option (List Char)

/-- The error raised when the source file cannot be opened for reading. -/
inductive PyError
  | fileNotFound (path : String)
deriving DecidableEq

/-- File-handling events performed by one run of the converter. -/
inductive Ev
  | openRead (path : String)
  | readAll (path : String)
  | closeRead (path : String)
  | openWrite (path : String)
  | write (path : String) (data : List Char)
  | closeWrite (path : String)
deriving DecidableEq

/-- Effect of one event on the filesystem: opening for writing creates or
truncates the file; a write appends to it; all other events leave the
filesystem unchanged. -/
def applyEv (fs : FS) : Ev → FS
  | Ev.openWrite p => fun q => if q = p then some [] else fs q
  | Ev.write p d => fun q => if q = p then some ((fs p).getD [] ++ d) else fs q
  | _ => fs

/-- Write events of the loop on lines 16-17 of the source: one write of the
token followed by a newline, per token, in order. -/
def writeEvents (wname : String) (raw : List (List Char)) : List Ev :=
  raw.map (fun word => Ev.write wname (word ++ ['\n']))

/-- Event trace of one run. The first context manager opens the source,
reads it whole and closes it; only then does the second context manager open
the destination, after which the write loop runs and the destination is
closed. If the source file is missing, opening it raises and no event
happens. -/
def pyTrace (rname wname : String) (fs : FS) : List Ev :=
  match fs rname with
  | none => []
  | some content =>
      Ev.openRead rname :: Ev.readAll rname :: Ev.closeRead rname ::
        Ev.openWrite wname ::
          (writeEvents wname (pySplit (pyStrip content)) ++ [Ev.closeWrite wname])

/-- The converter, lines 12-17 of the source: returns the outcome (the
propagated error when the source is missing) together with the final
filesystem, obtained by folding the run's event trace over the initial
filesystem. -/
def proc_mysql_stop_words (rname wname : String) (fs : FS) :
    Except PyError Unit × FS :=
  (match fs rname with
    | none => Except.error (PyError.fileNotFound rname)
    | some _ => Except.ok (),
   (pyTrace rname wname fs).foldl applyEv fs)

/-- The command-line entry point, lines 20-21 of the source: one conversion
with the two literal file names. -/
def pyMain (fs : FS) : Except PyError Unit × FS :=
  proc_mysql_stop_words "mysql_stop_words_raw.txt" "TNG_STOP_WORDS_MSQL" fs

/-- Spec-side splitter, written from the specification's words: cut the text
at every separator character, keeping the (possibly empty) pieces between
consecutive separators. -/
def splitBy (p : Char → Bool) : List Char → List (List Char)
  | [] => [[]]
  | c :: cs =>
      if p c then [] :: splitBy p cs
      else (splitBy p cs).modifyHead (fun h => c :: h)

/-- Spec-side TokenSequence: split the stripped source text on whitespace
boundaries and discard the empty pieces, since per the specification empty
tokens never appear in the result. -/
def specTokens (T : List Char) : List (List Char) :=
  (splitBy isPySpace (pyStrip T)).filter (fun t => !t.isEmpty)

/-- Spec-side DestinationText: the concatenation of each token in
TokenSequence followed by a single newline character, in order. -/
def specDestinationText (T : List Char) : List Char :=
  ((specTokens T).map (fun t => t ++ ['\n'])).flatten

/-- The newline-terminated lines of a file content: pieces between newline
characters, the last piece dropped since it is not newline-terminated (it is
empty whenever the content is empty or ends in a newline). -/
def linesOf (s : List Char) : List (List Char) :=
  (splitBy (fun c => c == '\n') s).dropLast

/-- Contribution of an event to the number of simultaneously open file
handles: an open adds one, a close removes one. -/
def handleDelta : Ev → Int
  | Ev.openRead _ => 1
  | Ev.closeRead _ => -1
  | Ev.openWrite _ => 1
  | Ev.closeWrite _ => -1
  | _ => 0

/-- Number of file handles left open after a list of events. -/
def openHandles (evs : List Ev) : Int := (evs.map handleDelta).sum

/-- Whether an event involves the read handle of the source file. -/
def isReadEv : Ev → Bool
  | Ev.openRead _ => true
  | Ev.readAll _ => true
  | Ev.closeRead _ => true
  | _ => false

/-- The path whose file an event modifies, if any. -/
def evTarget : Ev → Option String
  | Ev.openWrite p => some p
  | Ev.write p _ => some p
  | _ => none

example : procOutput "the   and\nor\tif\n".toList = "the\nand\nor\nif\n".toList := by decide

example : procOutput "  single  ".toList = "single\n".toList := by decide

example : procOutput [] = [] := by decide

/-! ### Properties of the spec-side splitter -/

theorem modifyHead_id_fun {α : Type} (l : List α) :
    l.modifyHead (fun h => h) = l := by
  cases l <;> rfl

theorem splitBy_ne_nil (p : Char → Bool) : ∀ s : List Char, splitBy p s ≠ []
  | [] => by simp [splitBy]
  | c :: cs => by
    have ih := splitBy_ne_nil p cs
    simp only [splitBy]
    split
    · simp
    · cases h : splitBy p cs with
      | nil => exact absurd h ih
      | cons a l => simp [List.modifyHead]

theorem splitBy_sound (p : Char → Bool) :
    ∀ s : List Char, ∀ t ∈ splitBy p s, ∀ c ∈ t, p c = false := by
  intro s
  induction s with
  | nil =>
    intro t ht c hc
    simp [splitBy] at ht
    subst ht
    simp at hc
  | cons a as ih =>
    intro t ht c hc
    by_cases hp : p a
    · simp only [splitBy, hp, if_true] at ht
      rcases List.mem_cons.mp ht with h1 | h2
      · subst h1; simp at hc
      · exact ih t h2 c hc
    · simp only [splitBy, hp, if_false] at ht
      cases hsp : splitBy p as with
      | nil => exact absurd hsp (splitBy_ne_nil p as)
      | cons h0 rest =>
        rw [hsp] at ht
        simp only [List.modifyHead] at ht
        rcases List.mem_cons.mp ht with h1 | h2
        · subst h1
          rcases List.mem_cons.mp hc with rfl | hc2
          · exact Bool.eq_false_iff.mpr hp
          · exact ih h0 (hsp ▸ List.mem_cons_self h0 rest) c hc2
        · exact ih t (hsp ▸ List.mem_cons_of_mem h0 h2) c hc

theorem splitBy_append_notp (p : Char → Bool) :
    ∀ t l : List Char, (∀ c ∈ t, p c = false) →
      splitBy p (t ++ l) = (splitBy p l).modifyHead (fun h => t ++ h) := by
  intro t
  induction t with
  | nil =>
    intro l _
    simp [modifyHead_id_fun]
  | cons a as ih =>
    intro l h
    have ha : p a = false := h a (List.mem_cons_self a as)
    have hstep : splitBy p ((a :: as) ++ l) =
        (splitBy p (as ++ l)).modifyHead (fun hh => a :: hh) := by
      simp [splitBy, ha]
    rw [hstep, ih l (fun c hc => h c (List.mem_cons_of_mem a hc)),
      List.modifyHead_modifyHead]
    congr 1

/-! ### The code-side split agrees with the spec-side split -/

theorem pySplitAux_eq : ∀ s acc : List Char,
    pySplitAux s acc =
      ((splitBy isPySpace s).modifyHead
        (fun h => acc.reverse ++ h)).filter (fun t => !t.isEmpty) := by
  intro s
  induction s with
  | nil =>
    intro acc
    cases acc with
    | nil => simp [pySplitAux, splitBy, List.modifyHead_cons, List.filter_cons]
    | cons a as =>
      simp [pySplitAux, splitBy, List.modifyHead_cons, List.filter_cons]
  | cons c cs ih =>
    intro acc
    cases hc : isPySpace c with
    | true =>
      cases acc with
      | nil =>
        simp [pySplitAux, splitBy, hc, ih, List.filter_cons,
          List.modifyHead_cons, modifyHead_id_fun]
      | cons a as =>
        simp [pySplitAux, splitBy, hc, ih, List.filter_cons,
          List.modifyHead_cons, modifyHead_id_fun]
    | false =>
      have hl : pySplitAux (c :: cs) acc = pySplitAux cs (c :: acc) := by
        simp [pySplitAux, hc]
      have hr : splitBy isPySpace (c :: cs) =
          (splitBy isPySpace cs).modifyHead (fun hh => c :: hh) := by
        simp [splitBy, hc]
      rw [hl, ih (c :: acc), hr, List.modifyHead_modifyHead]
      congr 2
      funext hh
      simp [Function.comp]

theorem pySplit_eq (s : List Char) :
    pySplit s = (splitBy isPySpace s).filter (fun t => !t.isEmpty) := by
  rw [pySplit, pySplitAux_eq s []]
  simp [modifyHead_id_fun]

theorem pyTokens_eq_specTokens (T : List Char) : pyTokens T = specTokens T := by
  rw [pyTokens, specTokens, pySplit_eq]

theorem pyTokens_ne_nil (T : List Char) : ∀ t ∈ pyTokens T, t ≠ [] := by
  intro t ht
  rw [pyTokens, pySplit_eq] at ht
  have := List.of_mem_filter ht
  simpa [List.isEmpty_iff] using this

theorem pyTokens_no_space (T : List Char) :
    ∀ t ∈ pyTokens T, ∀ c ∈ t, isPySpace c = false := by
  intro t ht c hc
  rw [pyTokens, pySplit_eq] at ht
  exact splitBy_sound isPySpace (pyStrip T) t (List.mem_of_mem_filter ht) c hc

/-! ### Lines of the produced output -/

theorem splitBy_flatten_sep (p : Char → Bool) (sep : Char) (hsep : p sep = true) :
    ∀ toks : List (List Char), (∀ t ∈ toks, ∀ c ∈ t, p c = false) →
      splitBy p ((toks.map (fun t => t ++ [sep])).flatten) = toks ++ [[]] := by
  intro toks
  induction toks with
  | nil =>
    intro _
    simp [splitBy]
  | cons t rest ih =>
    intro h
    simp only [List.map_cons, List.flatten_cons, List.append_assoc,
      List.singleton_append]
    rw [splitBy_append_notp p t _ (h t (List.mem_cons_self t rest))]
    simp only [splitBy, hsep, if_true]
    rw [ih (fun u hu => h u (List.mem_cons_of_mem t hu))]
    simp [List.modifyHead]

theorem linesOf_flatten (toks : List (List Char))
    (h : ∀ t ∈ toks, ∀ c ∈ t, isPySpace c = false) :
    linesOf ((toks.map (fun t => t ++ ['\n'])).flatten) = toks := by
  rw [linesOf, splitBy_flatten_sep (fun c => c == '\n') '\n' rfl toks,
    List.dropLast_concat]
  intro t ht c hc
  have hcs := h t ht c hc
  cases hbe : (c == '\n') with
  | false => rfl
  | true =>
    exfalso
    have : c = '\n' := by exact beq_iff_eq.mp hbe
    subst this
    simp [isPySpace] at hcs

theorem linesOf_procOutput (T : List Char) :
    linesOf (procOutput T) = pyTokens T :=
  linesOf_flatten (pyTokens T) (pyTokens_no_space T)

/-! ### Effect of the event trace on the filesystem -/

theorem applyEv_ne (fs : FS) (e : Ev) (q : String) (h : evTarget e ≠ some q) :
    applyEv fs e q = fs q := by
  cases e with
  | openWrite p =>
    have hpq : p ≠ q := fun hh => h (by simp [evTarget, hh])
    simp [applyEv, Ne.symm hpq]
  | write p d =>
    have hpq : p ≠ q := fun hh => h (by simp [evTarget, hh])
    simp [applyEv, Ne.symm hpq]
  | openRead p => rfl
  | readAll p => rfl
  | closeRead p => rfl
  | closeWrite p => rfl

theorem foldl_applyEv_ne :
    ∀ (evs : List Ev) (fs : FS) (q : String),
      (∀ e ∈ evs, evTarget e ≠ some q) → (evs.foldl applyEv fs) q = fs q := by
  intro evs
  induction evs with
  | nil => intro fs q _; rfl
  | cons e rest ih =>
    intro fs q h
    simp only [List.foldl_cons]
    rw [ih (applyEv fs e) q (fun x hx => h x (List.mem_cons_of_mem e hx)),
      applyEv_ne fs e q (h e (List.mem_cons_self e rest))]

theorem writeEvents_foldl (wname : String) :
    ∀ (toks : List (List Char)) (fs : FS) (l : List Char),
      fs wname = some l →
      ((writeEvents wname toks).foldl applyEv fs) wname =
        some (l ++ ((toks.map (fun t => t ++ ['\n'])).flatten)) := by
  intro toks
  induction toks with
  | nil =>
    intro fs l h
    simpa [writeEvents] using h
  | cons t rest ih =>
    intro fs l h
    have h1 : (applyEv fs (Ev.write wname (t ++ ['\n']))) wname =
        some (l ++ (t ++ ['\n'])) := by
      simp [applyEv, h]
    have h2 := ih (applyEv fs (Ev.write wname (t ++ ['\n'])))
      (l ++ (t ++ ['\n'])) h1
    simp only [writeEvents, List.map_cons, List.foldl_cons] at h2 ⊢
    rw [h2]
    simp [List.append_assoc]

theorem run_dest (rname wname : String) (fs : FS) (T : List Char)
    (h : fs rname = some T) :
    (proc_mysql_stop_words rname wname fs).2 wname = some (procOutput T) := by
  show ((pyTrace rname wname fs).foldl applyEv fs) wname = some (procOutput T)
  rw [pyTrace, h]
  simp only [List.foldl_cons]
  rw [List.foldl_append]
  show ((List.foldl applyEv
      (List.foldl applyEv (applyEv fs (Ev.openWrite wname))
        (writeEvents wname (pySplit (pyStrip T)))) [Ev.closeWrite wname])) wname
    = some (procOutput T)
  simp only [List.foldl_cons, List.foldl_nil]
  show (List.foldl applyEv (applyEv fs (Ev.openWrite wname))
    (writeEvents wname (pySplit (pyStrip T)))) wname = some (procOutput T)
  rw [writeEvents_foldl wname (pySplit (pyStrip T))
    (applyEv fs (Ev.openWrite wname)) [] (by simp [applyEv])]
  rfl

theorem pyTrace_target (rname wname : String) (fs : FS) :
    ∀ e ∈ pyTrace rname wname fs, ∀ q, evTarget e = some q → q = wname := by
  intro e he q hq
  rw [pyTrace] at he
  cases h : fs rname with
  | none => rw [h] at he; simp at he
  | some content =>
    rw [h] at he
    simp [writeEvents] at he
    rcases he with rfl | rfl | rfl | rfl | ⟨word, _, rfl⟩ | rfl
    · simp [evTarget] at hq
    · simp [evTarget] at hq
    · simp [evTarget] at hq
    · simp [evTarget] at hq; exact hq.symm
    · simp [evTarget] at hq; exact hq.symm
    · simp [evTarget] at hq

theorem run_frame (rname wname : String) (fs : FS) (q : String)
    (hq : q ≠ wname) :
    (proc_mysql_stop_words rname wname fs).2 q = fs q := by
  show ((pyTrace rname wname fs).foldl applyEv fs) q = fs q
  apply foldl_applyEv_ne
  intro e he hcontra
  exact hq (pyTrace_target rname wname fs e he q hcontra)

theorem run_error (rname wname : String) (fs : FS) (h : fs rname = none) :
    proc_mysql_stop_words rname wname fs =
      (Except.error (PyError.fileNotFound rname), fs) := by
  rw [proc_mysql_stop_words, pyTrace, h]
  rfl

/-! ### Open file handles along the trace -/

theorem sum_take_zeros {α : Type} (l : List α) :
    ∀ n : Nat, ((l.map (fun _ => (0 : Int))).take n).sum = 0 := by
  induction l with
  | nil => intro n; simp
  | cons a as ih =>
    intro n
    cases n with
    | zero => simp
    | succ m => simp [List.take_succ_cons, ih m]

theorem openHandles_take_writeEvents (wname : String) (toks : List (List Char))
    (n : Nat) : openHandles ((writeEvents wname toks).take n) = 0 := by
  rw [openHandles, List.map_take, writeEvents, List.map_map]
  have hz : (handleDelta ∘ fun word => Ev.write wname (word ++ ['\n'])) =
      fun _ => (0 : Int) := by
    funext w
    rfl
  rw [hz, ← List.map_take]
  rw [List.map_take]
  exact sum_take_zeros toks n

theorem openHandles_take_writePhase (wname : String) (toks : List (List Char))
    (m : Nat) :
    openHandles ((writeEvents wname toks ++ [Ev.closeWrite wname]).take m)
      ≤ 0 := by
  rw [List.take_append_eq_append_take, openHandles, List.map_append,
    List.sum_append]
  have h1 := openHandles_take_writeEvents wname toks m
  rw [openHandles] at h1
  rw [h1]
  cases hm : m - (writeEvents wname toks).length with
  | zero => simp
  | succ k =>
    have : [Ev.closeWrite wname].take (k + 1) = [Ev.closeWrite wname] := by
      simp
    rw [this]
    norm_num [handleDelta]

theorem openHandles_pyTrace_le (rname wname : String) (fs : FS) :
    ∀ n : Nat, openHandles ((pyTrace rname wname fs).take n) ≤ 1 := by
  intro n
  cases h : fs rname with
  | none =>
    rw [pyTrace, h]
    simp [openHandles]
  | some content =>
    rw [pyTrace, h]
    rcases n with _ | (_ | (_ | (_ | m)))
    · norm_num [openHandles]
    · norm_num [openHandles, handleDelta]
    · norm_num [openHandles, handleDelta]
    · norm_num [openHandles, handleDelta]
    · have hS := openHandles_take_writePhase wname
        (pySplit (pyStrip content)) m
      rw [openHandles] at hS
      simp only [List.take_succ_cons, openHandles, List.map_cons,
        List.sum_cons, handleDelta]
      omega

/-! ### Concrete filesystems used to instantiate the theorems -/

/-- A filesystem holding only the source file of Scenario A. -/
def fsScenA : FS :=
  fun p => if p = "in.txt" then some "the   and\nor\tif\n".toList else none

/-- A filesystem holding only an empty source file. -/
def fsEmptySrc : FS :=
  fun p => if p = "in.txt" then some [] else none

/-- A filesystem with a two-token source file. -/
def fsTwoTok : FS :=
  fun p => if p = "in.txt" then some "ab cd".toList else none

/-- A filesystem with the same source file as fsTwoTok and a stale
destination file that a run must fully overwrite. -/
def fsTwoTokStale : FS :=
  fun p =>
    if p = "in.txt" then some "ab cd".toList
    else if p = "out.txt" then some "stale old content".toList
    else none

/-- A filesystem holding no file at all. -/
def fsNone : FS := fun _ => none

/-- A filesystem with one file used both as source and destination. -/
def fsAlias : FS := fun p => if p = "f.txt" then some "x y".toList else none

/-! ### The claims -/

/-- C1: for every input file whose text content is T, proc_mysql_stop_words
writes to the destination exactly the concatenation, in order, of each
whitespace-separated token of T (after stripping leading and trailing
whitespace) followed by a single newline character; tokens are written as-is
with no escaping or normalization. -/
theorem c1_dest_is_spec_text (rname wname : String) (fs : FS) (T : List Char)
    (h : fs rname = some T) :
    (proc_mysql_stop_words rname wname fs).2 wname =
      some (specDestinationText T) := by
  rw [run_dest rname wname fs T h, procOutput, pyTokens_eq_specTokens]
  rfl

theorem c1_dest_is_spec_text_witness :
    (proc_mysql_stop_words "in.txt" "out.txt" fsScenA).2 "out.txt" =
      some (specDestinationText "the   and\nor\tif\n".toList) :=
  c1_dest_is_spec_text "in.txt" "out.txt" fsScenA
    "the   and\nor\tif\n".toList rfl

/-- C2: the number of newline-terminated lines of the destination file equals
the number of tokens obtained by whitespace-splitting the input text after
stripping its leading and trailing whitespace. -/
theorem c2_line_count (rname wname : String) (fs : FS) (T : List Char)
    (h : fs rname = some T) :
    (linesOf (((proc_mysql_stop_words rname wname fs).2 wname).getD
        [])).length = (specTokens T).length := by
  rw [run_dest rname wname fs T h]
  simp only [Option.getD_some]
  rw [linesOf_procOutput, pyTokens_eq_specTokens]

theorem c2_line_count_witness :
    (linesOf (((proc_mysql_stop_words "in.txt" "out.txt" fsTwoTok).2
        "out.txt").getD [])).length = (specTokens "ab cd".toList).length :=
  c2_line_count "in.txt" "out.txt" fsTwoTok "ab cd".toList rfl

/-- C3: every newline-terminated line of the destination file is non-empty
and contains no whitespace character, whatever the input text, including
inputs with consecutive whitespace runs or blank lines; stated as a boolean
check over all the lines of the produced destination content. -/
theorem c3_lines_nonempty_no_ws (rname wname : String) (fs : FS)
    (T : List Char) (h : fs rname = some T) :
    (linesOf (((proc_mysql_stop_words rname wname fs).2 wname).getD [])).all
      (fun l => !l.isEmpty && l.all (fun c => !isPySpace c)) = true := by
  rw [run_dest rname wname fs T h]
  simp only [Option.getD_some]
  rw [linesOf_procOutput]
  refine List.all_eq_true.mpr ?_
  intro l hl
  have h1 := pyTokens_ne_nil T l hl
  have h2 := pyTokens_no_space T l hl
  have hne : l.isEmpty = false := by
    cases l with
    | nil => exact absurd rfl h1
    | cons a as => rfl
  rw [Bool.and_eq_true]
  refine ⟨by rw [hne]; rfl, ?_⟩
  refine List.all_eq_true.mpr ?_
  intro c hc
  rw [h2 c hc]
  rfl

theorem c3_lines_nonempty_no_ws_witness :
    (linesOf (((proc_mysql_stop_words "in.txt" "out.txt" fsScenA).2
        "out.txt").getD [])).all
      (fun l => !l.isEmpty && l.all (fun c => !isPySpace c)) = true :=
  c3_lines_nonempty_no_ws "in.txt" "out.txt" fsScenA
    "the   and\nor\tif\n".toList rfl

/-- C4: when the source path holds no file, the run fails with the
file-not-found error naming that path, propagated in the result, and the
whole filesystem, the destination file included, is left unchanged. -/
theorem c4_missing_source (rname wname : String) (fs : FS)
    (h : fs rname = none) :
    (proc_mysql_stop_words rname wname fs).1 =
        Except.error (PyError.fileNotFound rname) ∧
      (proc_mysql_stop_words rname wname fs).2 = fs := by
  rw [run_error rname wname fs h]
  exact ⟨rfl, rfl⟩

theorem c4_missing_source_witness :
    (proc_mysql_stop_words "missing.txt" "out.txt" fsNone).1 =
        Except.error (PyError.fileNotFound "missing.txt") ∧
      (proc_mysql_stop_words "missing.txt" "out.txt" fsNone).2 = fsNone :=
  c4_missing_source "missing.txt" "out.txt" fsNone rfl

/-- C5: the destination content after a run is exactly the conversion of the
source content, independently of any previous destination content (created
if absent, truncated if present, never appended to); hence any two runs
seeing the same source content produce byte-identical destination files, and
in particular running twice in a row (with distinct source and destination
paths, so that the second run reads the same source content) leaves the
destination byte-identical to a single run. -/
theorem c5_idempotent (rname wname : String) (fs : FS) (T : List Char)
    (h : fs rname = some T) :
    (proc_mysql_stop_words rname wname fs).2 wname = some (procOutput T) ∧
    (∀ gs : FS, gs rname = some T →
      (proc_mysql_stop_words rname wname gs).2 wname =
        (proc_mysql_stop_words rname wname fs).2 wname) ∧
    (rname ≠ wname →
      (proc_mysql_stop_words rname wname
          ((proc_mysql_stop_words rname wname fs).2)).2 wname =
        (proc_mysql_stop_words rname wname fs).2 wname) := by
  refine ⟨run_dest rname wname fs T h, ?_, ?_⟩
  · intro gs hg
    rw [run_dest rname wname gs T hg, run_dest rname wname fs T h]
  · intro hne
    have h2 : ((proc_mysql_stop_words rname wname fs).2) rname = some T := by
      rw [run_frame rname wname fs rname hne, h]
    rw [run_dest rname wname _ T h2, run_dest rname wname fs T h]

theorem c5_idempotent_witness :
    (proc_mysql_stop_words "in.txt" "out.txt" fsTwoTok).2 "out.txt" =
        some (procOutput "ab cd".toList) ∧
      (proc_mysql_stop_words "in.txt" "out.txt" fsTwoTokStale).2 "out.txt" =
        (proc_mysql_stop_words "in.txt" "out.txt" fsTwoTok).2 "out.txt" ∧
      (proc_mysql_stop_words "in.txt" "out.txt"
          ((proc_mysql_stop_words "in.txt" "out.txt" fsTwoTok).2)).2
          "out.txt" =
        (proc_mysql_stop_words "in.txt" "out.txt" fsTwoTok).2 "out.txt" :=
  have H := c5_idempotent "in.txt" "out.txt" fsTwoTok "ab cd".toList rfl
  ⟨H.1, H.2.1 fsTwoTokStale rfl, H.2.2 (by decide)⟩

/-- C6 counterexample: the claim fails when the destination path equals the
source path; there the run rewrites the source file, whose content changes
from the raw text to its one-token-per-line conversion. -/
theorem c6_counterexample :
    (proc_mysql_stop_words "f.txt" "f.txt" fsAlias).2 "f.txt" ≠
      fsAlias "f.txt" := by
  decide

/-- C6 amended: a run writes no file other than the destination: every path
other than the destination path, the source path included whenever it
differs from the destination path, still holds exactly its previous
content. -/
theorem c6_frame (rname wname : String) (fs : FS) :
    (∀ p, p ≠ wname → (proc_mysql_stop_words rname wname fs).2 p = fs p) ∧
    (rname ≠ wname →
      (proc_mysql_stop_words rname wname fs).2 rname = fs rname) :=
  ⟨fun p hp => run_frame rname wname fs p hp,
    fun hne => run_frame rname wname fs rname hne⟩

theorem c6_frame_witness :
    (proc_mysql_stop_words "in.txt" "out.txt" fsTwoTok).2 "other.txt" =
        fsTwoTok "other.txt" ∧
      (proc_mysql_stop_words "in.txt" "out.txt" fsTwoTok).2 "in.txt" =
        fsTwoTok "in.txt" :=
  ⟨(c6_frame "in.txt" "out.txt" fsTwoTok).1 "other.txt" (by decide),
    (c6_frame "in.txt" "out.txt" fsTwoTok).2 (by decide)⟩

/-- C7: run with no arguments, the entry point performs one conversion whose
source is the file literally named mysql_stop_words_raw.txt and whose
destination is the file literally named TNG_STOP_WORDS_MSQL: the converted
content of the former becomes the content of the latter, no other file is
touched, and the entry point is exactly that one converter call. -/
theorem c7_main_fixed_names (fs : FS) (T : List Char)
    (h : fs "mysql_stop_words_raw.txt" = some T) :
    (pyMain fs).2 "TNG_STOP_WORDS_MSQL" = some (procOutput T) ∧
    (∀ p, p ≠ "TNG_STOP_WORDS_MSQL" → (pyMain fs).2 p = fs p) ∧
    pyMain fs = proc_mysql_stop_words "mysql_stop_words_raw.txt"
      "TNG_STOP_WORDS_MSQL" fs :=
  ⟨run_dest "mysql_stop_words_raw.txt" "TNG_STOP_WORDS_MSQL" fs T h,
    fun p hp => run_frame "mysql_stop_words_raw.txt" "TNG_STOP_WORDS_MSQL"
      fs p hp,
    rfl⟩

/-- A filesystem holding only the raw stop-words file the entry point
reads. -/
def fsMainSrc : FS :=
  fun p => if p = "mysql_stop_words_raw.txt" then some "a b".toList else none

theorem c7_main_fixed_names_witness :
    (pyMain fsMainSrc).2 "TNG_STOP_WORDS_MSQL" =
        some (procOutput "a b".toList) ∧
      (∀ p, p ≠ "TNG_STOP_WORDS_MSQL" → (pyMain fsMainSrc).2 p =
        fsMainSrc p) ∧
      pyMain fsMainSrc = proc_mysql_stop_words "mysql_stop_words_raw.txt"
        "TNG_STOP_WORDS_MSQL" fsMainSrc :=
  c7_main_fixed_names fsMainSrc "a b".toList rfl

/-- C8: for the Scenario A source content, the run produces exactly the
expected four-line destination content. -/
theorem c8_scenario_a :
    (proc_mysql_stop_words "in.txt" "out.txt" fsScenA).2 "out.txt" =
      some "the\nand\nor\nif\n".toList := by
  decide

/-- C9: for empty source content, the run creates a destination file that is
empty (zero bytes) and has zero newline-terminated lines. -/
theorem c9_empty_input :
    (proc_mysql_stop_words "in.txt" "out.txt" fsEmptySrc).2 "out.txt" =
        some [] ∧
      linesOf (((proc_mysql_stop_words "in.txt" "out.txt" fsEmptySrc).2
        "out.txt").getD ['x']) = [] := by
  constructor <;> decide

/-- C10: in every run, at most one file handle is ever open (the prefix sums
of the handle count along the trace never exceed one); on a readable source
the trace opens, reads and closes the source strictly before the first
destination event, and no source-handle event follows; and on a missing
source the trace is empty and the filesystem, the destination included, is
entirely untouched. -/
theorem c10_handle_discipline (rname wname : String) (fs : FS) :
    (∀ n : Nat, openHandles ((pyTrace rname wname fs).take n) ≤ 1) ∧
    (∀ T, fs rname = some T → ∃ ws,
      pyTrace rname wname fs =
          Ev.openRead rname :: Ev.readAll rname :: Ev.closeRead rname ::
            Ev.openWrite wname :: ws ∧
        (∀ e ∈ ws, isReadEv e = false)) ∧
    (fs rname = none → pyTrace rname wname fs = [] ∧
      (proc_mysql_stop_words rname wname fs).2 = fs) := by
  refine ⟨openHandles_pyTrace_le rname wname fs, ?_, ?_⟩
  · intro T h
    refine ⟨writeEvents wname (pySplit (pyStrip T)) ++ [Ev.closeWrite wname],
      ?_, ?_⟩
    · rw [pyTrace, h]
    · intro e he
      simp [writeEvents] at he
      rcases he with ⟨word, _, rfl⟩ | rfl
      · rfl
      · rfl
  · intro h
    constructor
    · rw [pyTrace, h]
    · rw [run_error rname wname fs h]

theorem c10_handle_discipline_witness :
    openHandles ((pyTrace "in.txt" "out.txt" fsTwoTok).take 4) ≤ 1 ∧
      (∃ ws, pyTrace "in.txt" "out.txt" fsTwoTok =
          Ev.openRead "in.txt" :: Ev.readAll "in.txt" ::
            Ev.closeRead "in.txt" :: Ev.openWrite "out.txt" :: ws ∧
        (∀ e ∈ ws, isReadEv e = false)) ∧
      (pyTrace "missing.txt" "out.txt" fsNone = [] ∧
        (proc_mysql_stop_words "missing.txt" "out.txt" fsNone).2 = fsNone) :=
  ⟨(c10_handle_discipline "in.txt" "out.txt" fsTwoTok).1 4,
    (c10_handle_discipline "in.txt" "out.txt" fsTwoTok).2.1
      "ab cd".toList rfl,
    (c10_handle_discipline "missing.txt" "out.txt" fsNone).2.2 rfl⟩
